import Mathlib

/-!
Verification of the 2048 board engine and animation reconciler.

The Go program stores the board as `board [boardSize][boardSize]int` with
`boardSize = 4`; empty cells are `0`.  We embed the board as a list of rows
of natural numbers.  The imperative per-line loops of the move functions
(`moveUp`, `moveRight`, `moveDown`, `moveLeft`) are embedded as structurally
recursive functions on the line read in the loop's traversal order (leading
edge first); a fuel argument equal to the line length drives the recursion
(the fuel never runs out, since every recursive call is on a list that is
exactly one cell shorter than the current fuel).
-/

namespace Game2048

/-- The `boardSize` constant from the source. -/
def boardSize : Nat := 4

/-- A grid: list of rows of tile values; `0` is an empty cell. -/
abbrev Grid := List (List Nat)

/-- Read `board[i][j]`, defaulting to `0` out of range. -/
def cell (g : Grid) (i j : Nat) : Nat := (g.getD i []).getD j 0

/-- Well-formed 4×4 grid. -/
def gridWF (g : Grid) : Prop := g.length = 4 ∧ ∀ r ∈ g, r.length = 4

instance : DecidablePred gridWF := fun g => by unfold gridWF; infer_instance

/-- The inner scan `for k := j+1; k < boardSize; k++ { if b[k] == 0 continue; ... }`
of the move loops: find the first non-zero entry of the list (the nearest
non-empty tile further along the line) and return its value together with the
list in which that entry has been zeroed (every slide or merge in the source
sets `board[k] = 0`).  Returns `none` when all entries are zero. -/
def zeroFirstNonzero : List Nat → Option (Nat × List Nat)
  | [] => none
  | x :: xs =>
    if x = 0 then
      match zeroFirstNonzero xs with
      | none => none
      | some (v, ys) => some (v, 0 :: ys)
    else
      some (x, 0 :: xs)

/-- Merge pass of the move loops (template: `moveLeft`, first inner loop), on a
line read leading-edge-first.  At the cell at the head: if it is empty and a
non-empty tile exists further on, that tile slides in (`board[j] = board[k];
board[k] = 0; j--`, so the same position is examined again and may merge with
the next non-empty tile); if it equals the nearest non-empty tile, the two
merge (`board[j] *= 2; score += board[j]; board[k] = 0`); otherwise the scan
for this position stops.  Returns (line, (score delta, moved flag)).  The fuel
is the length of the list. -/
def mergeRowAux : Nat → List Nat → List Nat × (Nat × Bool)
  | 0, l => (l, (0, false))
  | _ + 1, [] => ([], (0, false))
  | n + 1, a :: rest =>
    if a = 0 then
      match zeroFirstNonzero rest with
      | none =>
        let r := mergeRowAux n rest
        (0 :: r.1, r.2)
      | some (v, rest1) =>
        match zeroFirstNonzero rest1 with
        | none =>
          let r := mergeRowAux n rest1
          (v :: r.1, (r.2.1, true))
        | some (w, rest2) =>
          if w = v then
            let r := mergeRowAux n rest2
            ((v + v) :: r.1, (r.2.1 + (v + v), true))
          else
            let r := mergeRowAux n rest1
            (v :: r.1, (r.2.1, true))
    else
      match zeroFirstNonzero rest with
      | none =>
        let r := mergeRowAux n rest
        (a :: r.1, r.2)
      | some (v, rest1) =>
        if v = a then
          let r := mergeRowAux n rest1
          ((a + a) :: r.1, (r.2.1 + (a + a), true))
        else
          let r := mergeRowAux n rest
          (a :: r.1, r.2)

/-- Compaction pass of the move loops (template: `moveLeft`, second inner
loop): for each position toward the leading edge, if it is empty, the first
non-empty tile further along slides into it.  Returns (line, moved flag). -/
def compactRowAux : Nat → List Nat → List Nat × Bool
  | 0, l => (l, false)
  | _ + 1, [] => ([], false)
  | n + 1, a :: rest =>
    if a = 0 then
      match zeroFirstNonzero rest with
      | none =>
        let r := compactRowAux n rest
        (0 :: r.1, r.2)
      | some (v, rest1) =>
        let r := compactRowAux n rest1
        (v :: r.1, true)
    else
      let r := compactRowAux n rest
      (a :: r.1, r.2)

/-- The full per-line move (merge pass then compaction pass) of the source's
move functions, on a line read leading-edge-first:
returns (line, score delta, moved). -/
def moveRow (l : List Nat) : List Nat × Nat × Bool :=
  let m := mergeRowAux l.length l
  let c := compactRowAux m.1.length m.1
  (c.1, m.2.1, m.2.2 || c.2)

/-- Transpose of a 4×4 grid (used to run the column loops of `moveUp` /
`moveDown` as row loops); identity on malformed grids. -/
def transpose4 : Grid → Grid
  | [[a0, a1, a2, a3], [b0, b1, b2, b3], [c0, c1, c2, c3], [d0, d1, d2, d3]] =>
      [[a0, b0, c0, d0], [a1, b1, c1, d1], [a2, b2, c2, d2], [a3, b3, c3, d3]]
  | g => g

/-- Assemble the per-line results of a move function over a list of lines:
the score deltas accumulate (`g.score` is incremented inside every merge) and
the moved flags are or-ed (a single `moved` variable is set by every slide or
merge). -/
def moveLines (lines : List (List Nat)) : List (List Nat) × Nat × Bool :=
  let rs := lines.map moveRow
  (rs.map (fun p => p.1), (rs.map (fun p => p.2.1)).sum, rs.any (fun p => p.2.2))

/-- Source `moveLeft`: each row is processed leading-edge-first
(outer loops `j` ascending, inner scans `k` ascending). -/
def moveLeft (g : Grid) : Grid × Nat × Bool := moveLines g

/-- Source `moveRight`: each row is scanned from the right edge
(outer loop `j` from 3 down to 1, inner scan `k` from `j-1` down to 0), which
is the per-line move on the row read right-to-left. -/
def moveRight (g : Grid) : Grid × Nat × Bool :=
  let r := moveLines (g.map List.reverse)
  (r.1.map List.reverse, r.2)

/-- Source `moveUp`: the identical loops run on each column with
the top edge leading; embedded by transposing, moving every line left, and
transposing back. -/
def moveUp (g : Grid) : Grid × Nat × Bool :=
  let r := moveLines (transpose4 g)
  (transpose4 r.1, r.2)

/-- Source `moveDown`: the column loops run from the bottom edge
(outer `i` from 3 down to 1, inner `k` descending); embedded by transposing
and moving every column line read bottom-to-top. -/
def moveDown (g : Grid) : Grid × Nat × Bool :=
  let r := moveLines ((transpose4 g).map List.reverse)
  (transpose4 (r.1.map List.reverse), r.2)

/-- Source `canMove`, first scan: first an index scan for an empty cell, then an
index scan for a pair of adjacent equal cells (`j < boardSize-1` to the right,
`i < boardSize-1` downward). -/
def hasEmptyCell (g : Grid) : Bool :=
  (List.range 4).any fun i => (List.range 4).any fun j => decide (cell g i j = 0)

/-- Second scan of `canMove`: some horizontally or vertically adjacent pair of
cells holds equal values (the source does not test them for zero here; it only
reaches this scan when no cell is empty). -/
def hasAdjacentEqual (g : Grid) : Bool :=
  (List.range 4).any fun i => (List.range 4).any fun j =>
    (decide (j < 3) && decide (cell g i j = cell g i (j + 1))) ||
      (decide (i < 3) && decide (cell g i j = cell g (i + 1) j))

/-- Source `canMove`. -/
def canMove (g : Grid) : Bool := hasEmptyCell g || hasAdjacentEqual g

/-- The scan of `checkWin` from the source: it looks for a cell holding
exactly `2048` (`g.board[i][j] == 2048`). -/
def checkWin (g : Grid) : Bool :=
  (List.range 4).any fun i => (List.range 4).any fun j => decide (cell g i j = 2048)

/-- The property the spec states for `canMove`: an empty cell exists, or a
pair of horizontally or vertically adjacent cells holds equal non-zero
values. -/
def canMoveSpec (g : Grid) : Prop :=
  (∃ i, i < 4 ∧ ∃ j, j < 4 ∧ cell g i j = 0) ∨
    (∃ i, i < 4 ∧ ∃ j, j < 3 ∧ cell g i j ≠ 0 ∧ cell g i j = cell g i (j + 1)) ∨
    (∃ i, i < 3 ∧ ∃ j, j < 4 ∧ cell g i j ≠ 0 ∧ cell g i j = cell g (i + 1) j)

/-- Reference merge of the spec's line-squash, on the non-empty tiles of a
line in order: the two leading tiles merge when equal (each tile merging at
most once), otherwise the leading tile is kept; returns the merged tiles and
the score delta. -/
def mergeAdj : List Nat → List Nat × Nat
  | [] => ([], 0)
  | [a] => ([a], 0)
  | a :: b :: rest =>
    if a = b then
      let r := mergeAdj rest
      ((a + a) :: r.1, r.2 + (a + a))
    else
      let r := mergeAdj (b :: rest)
      (a :: r.1, r.2)

/-- The non-empty tiles of a line, in order. -/
def nonzeros (l : List Nat) : List Nat := l.filter fun x => decide (x ≠ 0)

/-- The spec's reference greedy line-squash: merge the non-empty tiles
pairwise from the leading edge, then compact toward the leading edge with no
gaps, padding with empties to the original length.
Returns (line, score delta). -/
def squashLine (n : Nat) (l : List Nat) : List Nat × Nat :=
  let m := mergeAdj (nonzeros l)
  (m.1 ++ List.replicate (n - m.1.length) 0, m.2)

/-- The reference line result at the line's own length. -/
def refLine (l : List Nat) : List Nat := (squashLine l.length l).1

/-- The reference score of a line. -/
def refLineScore (l : List Nat) : Nat := (squashLine l.length l).2

/-- Total of all tile values on the grid. -/
def gridSum (g : Grid) : Nat := (g.map List.sum).sum

/-- Move directions, the `DirectionUp/Right/Down/Left` constants. -/
inductive Dir where
  | up
  | right
  | down
  | left
deriving DecidableEq, Repr

/-- The `switch direction` dispatch of `Game.move`. -/
def moveBoard : Dir → Grid → Grid × Nat × Bool
  | Dir.up, g => moveUp g
  | Dir.right, g => moveRight g
  | Dir.down, g => moveDown g
  | Dir.left, g => moveLeft g

/-- The spec's reference move, per direction: every line (row or column),
read leading-edge-first, is replaced by its reference squash; the score delta
is the sum of the per-line scores. -/
def refBoard : Dir → Grid → Grid × Nat
  | Dir.left, g => (g.map refLine, (g.map refLineScore).sum)
  | Dir.right, g =>
      (g.map fun r => (refLine r.reverse).reverse,
       (g.map fun r => refLineScore r.reverse).sum)
  | Dir.up, g =>
      (transpose4 ((transpose4 g).map refLine),
       ((transpose4 g).map refLineScore).sum)
  | Dir.down, g =>
      (transpose4 ((transpose4 g).map fun r => (refLine r.reverse).reverse),
       ((transpose4 g).map fun r => refLineScore r.reverse).sum)

/-- The two animation kinds (`AnimationMove` / `AnimationMerge`). -/
inductive AnimKind where
  | move
  | merge
deriving DecidableEq, Repr

/-- Structure `TileAnimation` from the source; the render-only `progress` float (always
initialised to `0`) is omitted. -/
structure TileAnimation where
  fromX : Nat
  fromY : Nat
  toX : Nat
  toY : Nat
  value : Nat
  animType : AnimKind
deriving DecidableEq, Repr

/-- Row traversal order of `prepareAnimations`: `[0,1,2,3]`, reversed for a
downward move. -/
def rowOrder : Dir → List Nat
  | Dir.down => [3, 2, 1, 0]
  | _ => [0, 1, 2, 3]

/-- Column traversal order of `prepareAnimations`: `[0,1,2,3]`, reversed for
a rightward move. -/
def colOrder : Dir → List Nat
  | Dir.right => [3, 2, 1, 0]
  | _ => [0, 1, 2, 3]

/-- The source-cell traversal of `prepareAnimations` (rows outer, columns
inner). -/
def traversal (dir : Dir) : List (Nat × Nat) :=
  (rowOrder dir).flatMap fun i => (colOrder dir).map fun j => (i, j)

/-- The `rowRange` × `colRange` search segment for the source cell `(i, j)`:
the cells of its line between the leading edge and the cell itself, in
ascending index order exactly as the nested loops enumerate them. -/
def searchCells : Dir → Nat → Nat → List (Nat × Nat)
  | Dir.up, i, j => (List.range (i + 1)).map fun r => (r, j)
  | Dir.right, i, j => (List.range (4 - j)).map fun c => (i, j + c)
  | Dir.down, i, j => (List.range (4 - i)).map fun r => (i + r, j)
  | Dir.left, i, j => (List.range (j + 1)).map fun c => (i, c)

/-- The mutable state of the reconciler loop: `currentPositions` (a map from
position to value for the non-empty cells of the current board, entries
removed when claimed by a move), `mergedCells` (positions already claimed by
a merge animation), and the animation list built so far. -/
structure RecState where
  cur : Nat × Nat → Option Nat
  merged : Nat × Nat → Bool
  anims : List TileAnimation

/-- Initial reconciler state: `currentPositions` holds every non-empty cell
of the current board, no position is merge-claimed, no animation yet. -/
def initRecState (board : Grid) : RecState where
  cur := fun q => if cell board q.1 q.2 = 0 then none else some (cell board q.1 q.2)
  merged := fun _ => false
  anims := []

/-- One iteration of the reconciler's source-cell loop, for the cell `(i, j)`
of the previous board: if that cell was occupied and its value is gone or
changed, first search the segment for an unclaimed current tile of the same
value (a Move animation, whose destination is then removed from
`currentPositions`); failing that, search for a current tile of twice the
value at a position not yet merge-claimed (a Merge animation, marking the
position in `mergedCells`). -/
def processCell (dir : Dir) (prev board : Grid) (st : RecState)
    (p : Nat × Nat) : RecState :=
  let i := p.1
  let j := p.2
  let pv := cell prev i j
  if pv ≠ 0 ∧ (cell board i j = 0 ∨ cell board i j ≠ pv) then
    match (searchCells dir i j).find? fun q => decide (st.cur q = some pv) with
    | some q =>
        { st with
          cur := fun q2 => if q2 = q then none else st.cur q2,
          anims := st.anims ++ [⟨j, i, q.2, q.1, pv, AnimKind.move⟩] }
    | none =>
        match (searchCells dir i j).find?
            fun q => decide (st.cur q = some (pv * 2)) && !st.merged q with
        | some q =>
            { st with
              merged := fun q2 => if q2 = q then true else st.merged q2,
              anims := st.anims ++ [⟨j, i, q.2, q.1, pv, AnimKind.merge⟩] }
        | none => st
  else st

/-- Source `prepareAnimations`, as a pure function of the move
direction, the previous board and the current (post-move, pre-spawn) board.
The trailing `addRandomTile` call of the source spawns the new tile and adds
no animation; it is modelled separately. -/
def prepareAnimations (dir : Dir) (prev board : Grid) : List TileAnimation :=
  ((traversal dir).foldl (processCell dir prev board) (initRecState board)).anims

/-- Destinations of the Move-kind animations, as `(row, column)` pairs. -/
def moveTargets (l : List TileAnimation) : List (Nat × Nat) :=
  (l.filter fun a => decide (a.animType = AnimKind.move)).map fun a => (a.toY, a.toX)

/-- Destinations of the Merge-kind animations, as `(row, column)` pairs. -/
def mergeTargets (l : List TileAnimation) : List (Nat × Nat) :=
  (l.filter fun a => decide (a.animType = AnimKind.merge)).map fun a => (a.toY, a.toX)

/-- The empty cells of the board in row-major order, as enumerated by
`addRandomTile`. -/
def emptyCells (b : Grid) : List (Nat × Nat) :=
  (List.range 4).flatMap fun i =>
    (List.range 4).filterMap fun j => if cell b i j = 0 then some (i, j) else none

/-- Write value `v` at `board[i][j]`. -/
def setCell (b : Grid) (i j v : Nat) : Grid := b.set i ((b.getD i []).set j v)

/-- Source `addRandomTile`, with its two random draws passed
explicitly: `ci` selects the empty cell (`rand.Intn` modelled as `ci`
modulo the number of empty cells) and `four` is the 10% draw that makes the
new tile a `4` instead of a `2`.  No-op on a full board. -/
def addRandomTile (ci : Nat) (four : Bool) (b : Grid) : Grid :=
  let empties := emptyCells b
  match empties with
  | [] => b
  | e :: _ =>
      let p := empties.getD (ci % empties.length) e
      setCell b p.1 p.2 (if four then 4 else 2)

/-- Structure `GameSave` from the source (the JSON snapshot record). -/
structure GameSave where
  board : Grid
  score : Nat
  bestScore : Nat
  gameOver : Bool
  win : Bool
  showWin : Bool
deriving DecidableEq

/-- Structure `Game` from the source.  The render-only `animationProgress` float is
omitted; `lastMoveDirection` (an `int` initialised to `-1`) is modelled as
an `Option Dir`. -/
structure Game where
  board : Grid
  previousBoard : Grid
  score : Nat
  bestScore : Nat
  gameOver : Bool
  win : Bool
  showWin : Bool
  message : String
  messageTime : Nat
  animating : Bool
  animations : List TileAnimation
  lastMoveDirection : Option Dir
deriving DecidableEq

/-- The session fields the spec's load-failure property talks about. -/
def coreView (g : Game) : Grid × Nat × Nat × Bool × Bool × Bool :=
  (g.board, g.score, g.bestScore, g.gameOver, g.win, g.showWin)

/-- The all-empty board (`initBoard` first clears every cell). -/
def zeroGrid : Grid := List.replicate 4 (List.replicate 4 0)

/-- Source `initBoard`: clear the board, then add two random tiles
(random draws passed explicitly). -/
def initBoard (c1 c2 : Nat × Bool) (g : Game) : Game :=
  { g with board := addRandomTile c2.1 c2.2 (addRandomTile c1.1 c1.2 zeroGrid) }

/-- Source `resetGame`: zero the score, clear the game-over and win
flags, restore the win banner, re-initialise the board.  (The save-file
deletion is file I/O with no effect on the in-memory state.) -/
def resetGame (c1 c2 : Nat × Bool) (g : Game) : Game :=
  initBoard c1 c2
    { g with score := 0, gameOver := false, win := false, showWin := true }

/-- Source `Game.move`.  An in-flight animation rejects the command
outright.  Otherwise the direction is recorded, the board snapshotted to
`previousBoard`, and the directional move applied; the score rises by the
score delta and, when a merge happened, the best score becomes the maximum
of its old value and the new score (the source updates it after every merge
increment, so the net effect is the maximum at the final score).  On a
moved board the reconciler runs on the pre-spawn board, a tile spawns
(random draws passed explicitly), the animation starts, the win flag is
or-ed with the 2048 scan of the post-spawn board, and game over is set when
no move remains. -/
def move (ci : Nat) (four : Bool) (g : Game) (d : Dir) : Game × Bool :=
  if g.animating then (g, false)
  else
    let g1 := { g with lastMoveDirection := some d, previousBoard := g.board }
    let r := moveBoard d g1.board
    let g2 := { g1 with
      board := r.1,
      score := g1.score + r.2.1,
      bestScore := if r.2.1 = 0 then g1.bestScore
                   else max g1.bestScore (g1.score + r.2.1) }
    if r.2.2 then
      let anims := prepareAnimations d g2.previousBoard g2.board
      let b2 := addRandomTile ci four g2.board
      let g3 := { g2 with animations := anims, board := b2, animating := true }
      let g4 := { g3 with win := g3.win || checkWin g3.board }
      let g5 := if canMove g4.board then g4 else { g4 with gameOver := true }
      (g5, true)
    else (g2, false)

/-- Outcome of the file read attempted by `loadGame`: the file may be
missing, unreadable, or hold undecodable JSON; otherwise it decodes to a
snapshot. -/
inductive LoadResult where
  | missing
  | readError
  | decodeError
  | ok (s : GameSave)

/-- Source `loadGame`: on any failure it shows a message and
returns `false` before touching any session field; on success it restores
the six snapshot fields and returns `true`. -/
def loadGame : LoadResult → Game → Game × Bool
  | LoadResult.missing, g =>
      ({ g with message := "没有找到存档", messageTime := 60 }, false)
  | LoadResult.readError, g =>
      ({ g with message := "加载游戏失败", messageTime := 60 }, false)
  | LoadResult.decodeError, g =>
      ({ g with message := "加载游戏失败", messageTime := 60 }, false)
  | LoadResult.ok s, g =>
      ({ g with board := s.board, score := s.score, bestScore := s.bestScore,
                gameOver := s.gameOver, win := s.win, showWin := s.showWin,
                message := "游戏已加载", messageTime := 60 }, true)

/-- A full board with no adjacent equal pair: no move is possible. -/
def blockedGrid : Grid := [[2, 4, 2, 4], [4, 2, 4, 2], [2, 4, 2, 4], [4, 2, 4, 2]]

/-- A board whose largest tile exceeds 2048 with no exact 2048 tile. -/
def bigTileGrid : Grid :=
  [[4096, 0, 0, 0], [0, 0, 0, 0], [0, 0, 0, 0], [0, 0, 0, 0]]

/-- Previous board of the reconciler counterexample. -/
def cexPrev : Grid := [[4, 2, 2, 4], [0, 0, 0, 0], [0, 0, 0, 0], [0, 0, 0, 0]]

/-- Board `cexPrev` after a leftward move (pre-spawn). -/
def cexCurr : Grid := [[4, 4, 4, 0], [0, 0, 0, 0], [0, 0, 0, 0], [0, 0, 0, 0]]

/-- Previous board of the single-merge reconciler example. -/
def cexPrev2 : Grid := [[2, 2, 0, 0], [0, 0, 0, 0], [0, 0, 0, 0], [0, 0, 0, 0]]

/-- Board `cexPrev2` after a leftward move (pre-spawn). -/
def cexCurr2 : Grid := [[4, 0, 0, 0], [0, 0, 0, 0], [0, 0, 0, 0], [0, 0, 0, 0]]

/-- A concrete session state that is mid-animation. -/
def animGame : Game where
  board := blockedGrid
  previousBoard := cexPrev
  score := 12
  bestScore := 40
  gameOver := false
  win := false
  showWin := true
  message := ""
  messageTime := 0
  animating := true
  animations := [⟨1, 0, 0, 0, 2, AnimKind.merge⟩]
  lastMoveDirection := some Dir.left

/-- A concrete session state whose win flag is set. -/
def winGame : Game :=
  { animGame with animating := false, win := true, board := cexPrev2 }

lemma zeroFirstNonzero_none {l : List Nat} (h : zeroFirstNonzero l = none) :
    ∀ x ∈ l, x = 0 := by
  induction l with
  | nil => simp
  | cons x xs ih =>
    intro y hy
    rw [zeroFirstNonzero] at h
    by_cases hx : x = 0
    · simp only [hx, if_true] at h
      rcases hzf : zeroFirstNonzero xs with _ | p
      · rcases List.mem_cons.mp hy with rfl | hy
        · exact hx
        · exact ih hzf y hy
      · rw [hzf] at h; simp at h
    · simp [hx] at h

lemma zeroFirstNonzero_some {l l' : List Nat} {v : Nat}
    (h : zeroFirstNonzero l = some (v, l')) :
    v ≠ 0 ∧ l'.length = l.length ∧ nonzeros l = v :: nonzeros l' ∧
      l.sum = v + l'.sum := by
  induction l generalizing l' with
  | nil => simp [zeroFirstNonzero] at h
  | cons x xs ih =>
    rw [zeroFirstNonzero] at h
    by_cases hx : x = 0
    · simp only [hx, if_true] at h
      rcases hzf : zeroFirstNonzero xs with _ | ⟨w, ys⟩
      · rw [hzf] at h; simp at h
      · rw [hzf] at h
        simp only [Option.some.injEq, Prod.mk.injEq] at h
        obtain ⟨rfl, rfl⟩ := h
        obtain ⟨h1, h2, h3, h4⟩ := ih hzf
        refine ⟨h1, by simp [h2], ?_, by simp [hx, h4]⟩
        simp [nonzeros, hx] at h3 ⊢
        exact h3
    · simp only [hx, if_false, if_neg hx, Option.some.injEq, Prod.mk.injEq] at h
      obtain ⟨rfl, rfl⟩ := h
      refine ⟨hx, by simp, ?_, by simp⟩
      simp [nonzeros, hx]

lemma zeroFirstNonzero_eq_none {l : List Nat} (h : ∀ x ∈ l, x = 0) :
    zeroFirstNonzero l = none := by
  induction l with
  | nil => rfl
  | cons x xs ih =>
    have hx : x = 0 := h x (by simp)
    rw [zeroFirstNonzero, if_pos hx, ih fun y hy => h y (by simp [hy])]

lemma nonzeros_cons_zero (l : List Nat) : nonzeros (0 :: l) = nonzeros l := by
  simp [nonzeros]

lemma nonzeros_cons_ne {a : Nat} (ha : a ≠ 0) (l : List Nat) :
    nonzeros (a :: l) = a :: nonzeros l := by
  simp [nonzeros, ha]

lemma nonzeros_eq_nil {l : List Nat} (h : ∀ x ∈ l, x = 0) : nonzeros l = [] := by
  induction l with
  | nil => rfl
  | cons x xs ih =>
    have hx : x = 0 := h x (by simp)
    rw [hx, nonzeros_cons_zero]
    exact ih fun y hy => h y (by simp [hy])

lemma mergeRowAux_allzero : ∀ (n : Nat) {l : List Nat}, (∀ x ∈ l, x = 0) →
    mergeRowAux n l = (l, (0, false))
  | 0, _, _ => rfl
  | _ + 1, [], _ => rfl
  | n + 1, a :: rest, h => by
    have ha : a = 0 := h a (by simp)
    have hr : ∀ x ∈ rest, x = 0 := fun y hy => h y (by simp [hy])
    rw [mergeRowAux, if_pos ha, zeroFirstNonzero_eq_none hr,
      mergeRowAux_allzero n hr, ha]

lemma compactRowAux_allzero : ∀ (n : Nat) {l : List Nat}, (∀ x ∈ l, x = 0) →
    compactRowAux n l = (l, false)
  | 0, _, _ => rfl
  | _ + 1, [], _ => rfl
  | n + 1, a :: rest, h => by
    have ha : a = 0 := h a (by simp)
    have hr : ∀ x ∈ rest, x = 0 := fun y hy => h y (by simp [hy])
    rw [compactRowAux, if_pos ha, zeroFirstNonzero_eq_none hr,
      compactRowAux_allzero n hr, ha]

lemma mergeRowAux_length : ∀ (n : Nat) (l : List Nat), l.length = n →
    (mergeRowAux n l).1.length = n := by
  intro n
  induction n with
  | zero => intro l hl; simpa using hl
  | succ n ih =>
    intro l hl
    rcases l with _ | ⟨a, rest⟩
    · simp at hl
    · have hrest : rest.length = n := by simpa using hl
      by_cases ha : a = 0
      · rcases h1 : zeroFirstNonzero rest with _ | ⟨v, rest1⟩
        · simp only [mergeRowAux, if_pos ha, h1]
          simpa using ih rest hrest
        · obtain ⟨-, hlen1, -, -⟩ := zeroFirstNonzero_some h1
          rcases h2 : zeroFirstNonzero rest1 with _ | ⟨w, rest2⟩
          · simp only [mergeRowAux, if_pos ha, h1, h2]
            simpa using ih rest1 (hlen1.trans hrest)
          · obtain ⟨-, hlen2, -, -⟩ := zeroFirstNonzero_some h2
            by_cases hw : w = v
            · simp only [mergeRowAux, if_pos ha, h1, h2, if_pos hw]
              simpa using ih rest2 (hlen2.trans (hlen1.trans hrest))
            · simp only [mergeRowAux, if_pos ha, h1, h2, if_neg hw]
              simpa using ih rest1 (hlen1.trans hrest)
      · rcases h1 : zeroFirstNonzero rest with _ | ⟨v, rest1⟩
        · simp only [mergeRowAux, if_neg ha, h1]
          simpa using ih rest hrest
        · obtain ⟨-, hlen1, -, -⟩ := zeroFirstNonzero_some h1
          by_cases hv : v = a
          · simp only [mergeRowAux, if_neg ha, h1, if_pos hv]
            simpa using ih rest1 (hlen1.trans hrest)
          · simp only [mergeRowAux, if_neg ha, h1, if_neg hv]
            simpa using ih rest hrest

/-- The key refinement lemma: the source's merge pass followed by its
compaction pass computes, on any line, the reference greedy squash of the
spec, with the same score delta. -/
lemma aux_eq_squash : ∀ (n : Nat) (l : List Nat), l.length = n →
    (compactRowAux n (mergeRowAux n l).1).1 = (squashLine n l).1 ∧
      (mergeRowAux n l).2.1 = (squashLine n l).2 := by
  intro n
  induction n with
  | zero =>
    intro l hl
    rw [List.length_eq_zero] at hl
    subst hl
    exact ⟨rfl, rfl⟩
  | succ n ih =>
    intro l hl
    rcases l with _ | ⟨a, rest⟩
    · simp at hl
    · have hrest : rest.length = n := by simpa using hl
      by_cases ha : a = 0
      · rcases h1 : zeroFirstNonzero rest with _ | ⟨v, rest1⟩
        · -- the whole line is empty
          have hz : ∀ x ∈ rest, x = 0 := zeroFirstNonzero_none h1
          have hrep : rest = List.replicate n 0 :=
            List.eq_replicate_iff.mpr ⟨hrest, hz⟩
          constructor
          · simp [mergeRowAux, ha, h1, mergeRowAux_allzero n hz, compactRowAux,
              zeroFirstNonzero_eq_none hz, compactRowAux_allzero n hz,
              squashLine, nonzeros_cons_zero, nonzeros_eq_nil hz, mergeAdj]
            rw [hrep]
            simp [List.replicate_succ]
          · simp [mergeRowAux, ha, h1, mergeRowAux_allzero n hz,
              squashLine, nonzeros_cons_zero, nonzeros_eq_nil hz, mergeAdj]
        · obtain ⟨hv, hlen1, hnz1, -⟩ := zeroFirstNonzero_some h1
          rcases h2 : zeroFirstNonzero rest1 with _ | ⟨w, rest2⟩
          · -- slide `v` to the front; nothing non-empty is left behind it
            have hz1 : ∀ x ∈ rest1, x = 0 := zeroFirstNonzero_none h2
            have hr1 : rest1.length = n := hlen1.trans hrest
            have hrep1 : rest1 = List.replicate n 0 :=
              List.eq_replicate_iff.mpr ⟨hr1, hz1⟩
            constructor
            · simp [mergeRowAux, ha, h1, h2, mergeRowAux_allzero n hz1,
                compactRowAux, if_neg hv, compactRowAux_allzero n hz1,
                squashLine, nonzeros_cons_zero, hnz1, nonzeros_eq_nil hz1,
                mergeAdj]
              rw [hrep1]
            · simp [mergeRowAux, ha, h1, h2, mergeRowAux_allzero n hz1,
                squashLine, nonzeros_cons_zero, hnz1, nonzeros_eq_nil hz1,
                mergeAdj]
          · obtain ⟨hw, hlen2, hnz2, -⟩ := zeroFirstNonzero_some h2
            by_cases hwv : w = v
            · -- slide then merge
              subst hwv
              have hr2 : rest2.length = n := hlen2.trans (hlen1.trans hrest)
              obtain ⟨ihc, ihs⟩ := ih rest2 hr2
              simp only [squashLine] at ihc ihs
              constructor
              · simp [mergeRowAux, ha, h1, h2, compactRowAux, hv,
                  if_neg (by omega : ¬ w + w = 0), ihc,
                  squashLine, nonzeros_cons_zero, hnz1, hnz2, mergeAdj,
                  Nat.succ_sub_succ]
              · simp [mergeRowAux, ha, h1, h2, ihs,
                  squashLine, nonzeros_cons_zero, hnz1, hnz2, mergeAdj]
            · -- slide, then blocked
              have hr1 : rest1.length = n := hlen1.trans hrest
              obtain ⟨ihc, ihs⟩ := ih rest1 hr1
              simp only [squashLine, hnz2] at ihc ihs
              constructor
              · simp [mergeRowAux, ha, h1, h2, if_neg hwv, compactRowAux,
                  if_neg hv, ihc, squashLine, nonzeros_cons_zero, hnz1, hnz2,
                  mergeAdj, if_neg (fun hh => hwv hh.symm : ¬ v = w),
                  Nat.succ_sub_succ]
              · simp [mergeRowAux, ha, h1, h2, if_neg hwv, ihs,
                  squashLine, nonzeros_cons_zero, hnz1, hnz2, mergeAdj,
                  if_neg (fun hh => hwv hh.symm : ¬ v = w)]
      · rcases h1 : zeroFirstNonzero rest with _ | ⟨v, rest1⟩
        · -- nothing non-empty after the head
          have hz : ∀ x ∈ rest, x = 0 := zeroFirstNonzero_none h1
          have hrep : rest = List.replicate n 0 :=
            List.eq_replicate_iff.mpr ⟨hrest, hz⟩
          constructor
          · simp [mergeRowAux, ha, h1, mergeRowAux_allzero n hz, compactRowAux,
              compactRowAux_allzero n hz, squashLine, nonzeros_cons_ne ha,
              nonzeros_eq_nil hz, mergeAdj]
            rw [hrep]
          · simp [mergeRowAux, ha, h1, mergeRowAux_allzero n hz,
              squashLine, nonzeros_cons_ne ha, nonzeros_eq_nil hz, mergeAdj]
        · obtain ⟨hv, hlen1, hnz1, -⟩ := zeroFirstNonzero_some h1
          by_cases hva : v = a
          · -- merge with the nearest non-empty tile
            subst hva
            have hr1 : rest1.length = n := hlen1.trans hrest
            obtain ⟨ihc, ihs⟩ := ih rest1 hr1
            simp only [squashLine] at ihc ihs
            constructor
            · simp [mergeRowAux, ha, h1, compactRowAux,
                if_neg (by omega : ¬ v + v = 0), ihc, squashLine,
                nonzeros_cons_ne ha, hnz1, mergeAdj, Nat.succ_sub_succ]
            · simp [mergeRowAux, ha, h1, ihs, squashLine,
                nonzeros_cons_ne ha, hnz1, mergeAdj]
          · -- blocked by a different value
            obtain ⟨ihc, ihs⟩ := ih rest hrest
            simp only [squashLine, hnz1] at ihc ihs
            constructor
            · simp [mergeRowAux, ha, h1, if_neg hva, compactRowAux, ihc,
                squashLine, nonzeros_cons_ne ha, hnz1, mergeAdj,
                if_neg (fun hh => hva hh.symm : ¬ a = v), Nat.succ_sub_succ]
            · simp [mergeRowAux, ha, h1, if_neg hva, ihs, squashLine,
                nonzeros_cons_ne ha, hnz1, mergeAdj,
                if_neg (fun hh => hva hh.symm : ¬ a = v)]

/-- The per-line move equals the reference squash of the spec. -/
lemma moveRow_eq_refLine (l : List Nat) :
    (moveRow l).1 = refLine l ∧ (moveRow l).2.1 = refLineScore l := by
  have hlen := mergeRowAux_length l.length l rfl
  have h := aux_eq_squash l.length l rfl
  rw [moveRow]
  simp only [hlen]
  exact ⟨h.1, h.2⟩

lemma mergeAdj_sum : ∀ l : List Nat, (mergeAdj l).1.sum = l.sum
  | [] => rfl
  | [a] => by simp [mergeAdj]
  | a :: b :: rest => by
    by_cases h : a = b
    · simp [mergeAdj, h, mergeAdj_sum rest]
      omega
    · simp [mergeAdj, h, mergeAdj_sum (b :: rest)]

lemma nonzeros_sum (l : List Nat) : (nonzeros l).sum = l.sum := by
  induction l with
  | nil => rfl
  | cons a rest ih =>
    by_cases h : a = 0
    · rw [h, nonzeros_cons_zero]
      simp [ih]
    · rw [nonzeros_cons_ne h]
      simp [ih]

lemma refLine_sum (l : List Nat) : (refLine l).sum = l.sum := by
  simp [refLine, squashLine, mergeAdj_sum, nonzeros_sum]

lemma moveRow_sum (l : List Nat) : ((moveRow l).1).sum = l.sum := by
  rw [(moveRow_eq_refLine l).1, refLine_sum]

lemma moveLines_fst (g : List (List Nat)) : (moveLines g).1 = g.map refLine := by
  simp only [moveLines, List.map_map]
  exact List.map_congr_left fun r _ => (moveRow_eq_refLine r).1

lemma moveLines_score (g : List (List Nat)) :
    (moveLines g).2.1 = (g.map refLineScore).sum := by
  simp only [moveLines, List.map_map]
  congr 1
  exact List.map_congr_left fun r _ => (moveRow_eq_refLine r).2

lemma gridSum_transpose4 (g : Grid) : gridSum (transpose4 g) = gridSum g := by
  unfold transpose4
  split
  · simp [gridSum]
    ring
  · rfl

lemma gridSum_map_reverse (g : Grid) :
    gridSum (g.map List.reverse) = gridSum g := by
  simp only [gridSum, List.map_map]
  congr 1
  exact List.map_congr_left fun r _ => by simp [Function.comp, List.sum_reverse]

lemma gridSum_moveLines (g : Grid) : gridSum (moveLines g).1 = gridSum g := by
  rw [moveLines_fst]
  simp only [gridSum, List.map_map]
  congr 1
  exact List.map_congr_left fun r _ => by simp [Function.comp, refLine_sum]

lemma range4_any {p : Nat → Bool} :
    (List.range 4).any p = true ↔ ∃ i, i < 4 ∧ p i = true := by
  simp [List.any_eq_true, List.mem_range]

lemma canMove_iff_spec (g : Grid) : canMove g = true ↔ canMoveSpec g := by
  simp only [canMove, hasEmptyCell, hasAdjacentEqual, canMoveSpec,
    Bool.or_eq_true, range4_any, Bool.and_eq_true, decide_eq_true_eq]
  constructor
  · rintro (⟨i, hi, j, hj, hz⟩ | ⟨i, hi, j, hj, ⟨hj3, heq⟩ | ⟨hi3, heq⟩⟩)
    · exact Or.inl ⟨i, hi, j, hj, hz⟩
    · by_cases hz : cell g i j = 0
      · exact Or.inl ⟨i, hi, j, hj, hz⟩
      · exact Or.inr (Or.inl ⟨i, hi, j, hj3, hz, heq⟩)
    · by_cases hz : cell g i j = 0
      · exact Or.inl ⟨i, hi, j, hj, hz⟩
      · exact Or.inr (Or.inr ⟨i, hi3, j, hj, hz, heq⟩)
  · rintro (⟨i, hi, j, hj, hz⟩ | ⟨i, hi, j, hj3, -, heq⟩ | ⟨i, hi3, j, hj, -, heq⟩)
    · exact Or.inl ⟨i, hi, j, hj, hz⟩
    · exact Or.inr ⟨i, hi, j, by omega, Or.inl ⟨hj3, heq⟩⟩
    · exact Or.inr ⟨i, by omega, j, hj, Or.inr ⟨hi3, heq⟩⟩

lemma checkWin_iff (g : Grid) :
    checkWin g = true ↔ ∃ i, i < 4 ∧ ∃ j, j < 4 ∧ cell g i j = 2048 := by
  simp only [checkWin, range4_any, decide_eq_true_eq]

lemma mergeRowAux_nil : ∀ n : Nat, mergeRowAux n [] = ([], (0, false))
  | 0 => rfl
  | _ + 1 => rfl

lemma compactRowAux_nil : ∀ n : Nat, compactRowAux n [] = ([], false)
  | 0 => rfl
  | _ + 1 => rfl

lemma mergeRowAux_noop : ∀ (n : Nat) {l : List Nat}, (∀ x ∈ l, x ≠ 0) →
    l.Chain' (fun x y => x ≠ y) → mergeRowAux n l = (l, (0, false))
  | 0, _, _, _ => rfl
  | _ + 1, [], _, _ => rfl
  | n + 1, a :: rest, hnz, hch => by
    have ha : a ≠ 0 := hnz a (by simp)
    have hr : ∀ x ∈ rest, x ≠ 0 := fun y hy => hnz y (by simp [hy])
    rcases rest with _ | ⟨b, t⟩
    · simp [mergeRowAux, ha, zeroFirstNonzero, mergeRowAux_nil]
    · have hb : b ≠ 0 := hr b (by simp)
      have hab : a ≠ b := (List.chain'_cons.mp hch).1
      have hrec := mergeRowAux_noop n hr (List.chain'_cons.mp hch).2
      simp [mergeRowAux, ha, zeroFirstNonzero, hb, hrec,
        if_neg (fun hh => hab hh.symm : ¬ b = a)]

lemma compactRowAux_noop : ∀ (n : Nat) {l : List Nat}, (∀ x ∈ l, x ≠ 0) →
    compactRowAux n l = (l, false)
  | 0, _, _ => rfl
  | _ + 1, [], _ => rfl
  | n + 1, a :: rest, hnz => by
    have ha : a ≠ 0 := hnz a (by simp)
    have hr : ∀ x ∈ rest, x ≠ 0 := fun y hy => hnz y (by simp [hy])
    simp [compactRowAux, ha, compactRowAux_noop n hr]

/-- A line with no empty cell and no adjacent equal pair does not move. -/
lemma moveRow_noop {l : List Nat} (hnz : ∀ x ∈ l, x ≠ 0)
    (hch : l.Chain' (fun x y => x ≠ y)) : moveRow l = (l, 0, false) := by
  rw [moveRow, mergeRowAux_noop l.length hnz hch]
  simp [compactRowAux_noop l.length hnz]

lemma moveRow_noop4 {x0 x1 x2 x3 : Nat} (h0 : x0 ≠ 0) (h1 : x1 ≠ 0)
    (h2 : x2 ≠ 0) (h3 : x3 ≠ 0) (e01 : x0 ≠ x1) (e12 : x1 ≠ x2)
    (e23 : x2 ≠ x3) : moveRow [x0, x1, x2, x3] = ([x0, x1, x2, x3], 0, false) := by
  apply moveRow_noop
  · intro x hx
    rcases List.mem_cons.mp hx with rfl | hx
    · exact h0
    rcases List.mem_cons.mp hx with rfl | hx
    · exact h1
    rcases List.mem_cons.mp hx with rfl | hx
    · exact h2
    rcases List.mem_cons.mp hx with rfl | hx
    · exact h3
    · simp at hx
  · simp [List.chain'_cons]
    exact ⟨e01, e12, e23⟩

lemma len4_cases {α : Type} {l : List α} (h : l.length = 4) :
    ∃ x0 x1 x2 x3, l = [x0, x1, x2, x3] := by
  rcases l with _ | ⟨x0, _ | ⟨x1, _ | ⟨x2, _ | ⟨x3, _ | ⟨x4, t⟩⟩⟩⟩⟩ <;> simp_all

lemma gridWF_cases {g : Grid} (h : gridWF g) :
    ∃ a0 a1 a2 a3 b0 b1 b2 b3 c0 c1 c2 c3 d0 d1 d2 d3 : Nat,
      g = [[a0, a1, a2, a3], [b0, b1, b2, b3], [c0, c1, c2, c3],
           [d0, d1, d2, d3]] := by
  obtain ⟨hlen, hrows⟩ := h
  obtain ⟨r0, r1, r2, r3, rfl⟩ := len4_cases hlen
  obtain ⟨a0, a1, a2, a3, rfl⟩ := len4_cases (hrows r0 (by simp))
  obtain ⟨b0, b1, b2, b3, rfl⟩ := len4_cases (hrows r1 (by simp))
  obtain ⟨c0, c1, c2, c3, rfl⟩ := len4_cases (hrows r2 (by simp))
  obtain ⟨d0, d1, d2, d3, rfl⟩ := len4_cases (hrows r3 (by simp))
  exact ⟨a0, a1, a2, a3, b0, b1, b2, b3, c0, c1, c2, c3, d0, d1, d2, d3, rfl⟩

/-- A board on which `canMove` is false is left unchanged, with zero score
delta and `moved == false`, by every direction. -/
lemma canMove_false_noop {g : Grid} (hwf : gridWF g)
    (hcm : canMove g = false) : ∀ d : Dir, moveBoard d g = (g, 0, false) := by
  obtain ⟨a0, a1, a2, a3, b0, b1, b2, b3, c0, c1, c2, c3, d0, d1, d2, d3, rfl⟩ :=
    gridWF_cases hwf
  have hspec : ¬ canMoveSpec _ := fun hsp => by
    rw [(canMove_iff_spec _).mpr hsp] at hcm
    cases hcm
  simp only [canMoveSpec, not_or] at hspec
  obtain ⟨hA, hB, hC⟩ := hspec
  push_neg at hA hB hC
  have n00 : a0 ≠ 0 := hA 0 (by omega) 0 (by omega)
  have n01 : a1 ≠ 0 := hA 0 (by omega) 1 (by omega)
  have n02 : a2 ≠ 0 := hA 0 (by omega) 2 (by omega)
  have n03 : a3 ≠ 0 := hA 0 (by omega) 3 (by omega)
  have n10 : b0 ≠ 0 := hA 1 (by omega) 0 (by omega)
  have n11 : b1 ≠ 0 := hA 1 (by omega) 1 (by omega)
  have n12 : b2 ≠ 0 := hA 1 (by omega) 2 (by omega)
  have n13 : b3 ≠ 0 := hA 1 (by omega) 3 (by omega)
  have n20 : c0 ≠ 0 := hA 2 (by omega) 0 (by omega)
  have n21 : c1 ≠ 0 := hA 2 (by omega) 1 (by omega)
  have n22 : c2 ≠ 0 := hA 2 (by omega) 2 (by omega)
  have n23 : c3 ≠ 0 := hA 2 (by omega) 3 (by omega)
  have n30 : d0 ≠ 0 := hA 3 (by omega) 0 (by omega)
  have n31 : d1 ≠ 0 := hA 3 (by omega) 1 (by omega)
  have n32 : d2 ≠ 0 := hA 3 (by omega) 2 (by omega)
  have n33 : d3 ≠ 0 := hA 3 (by omega) 3 (by omega)
  have ea0 : a0 ≠ a1 := hB 0 (by omega) 0 (by omega) n00
  have ea1 : a1 ≠ a2 := hB 0 (by omega) 1 (by omega) n01
  have ea2 : a2 ≠ a3 := hB 0 (by omega) 2 (by omega) n02
  have eb0 : b0 ≠ b1 := hB 1 (by omega) 0 (by omega) n10
  have eb1 : b1 ≠ b2 := hB 1 (by omega) 1 (by omega) n11
  have eb2 : b2 ≠ b3 := hB 1 (by omega) 2 (by omega) n12
  have ec0 : c0 ≠ c1 := hB 2 (by omega) 0 (by omega) n20
  have ec1 : c1 ≠ c2 := hB 2 (by omega) 1 (by omega) n21
  have ec2 : c2 ≠ c3 := hB 2 (by omega) 2 (by omega) n22
  have ed0 : d0 ≠ d1 := hB 3 (by omega) 0 (by omega) n30
  have ed1 : d1 ≠ d2 := hB 3 (by omega) 1 (by omega) n31
  have ed2 : d2 ≠ d3 := hB 3 (by omega) 2 (by omega) n32
  have v00 : a0 ≠ b0 := hC 0 (by omega) 0 (by omega) n00
  have v01 : a1 ≠ b1 := hC 0 (by omega) 1 (by omega) n01
  have v02 : a2 ≠ b2 := hC 0 (by omega) 2 (by omega) n02
  have v03 : a3 ≠ b3 := hC 0 (by omega) 3 (by omega) n03
  have v10 : b0 ≠ c0 := hC 1 (by omega) 0 (by omega) n10
  have v11 : b1 ≠ c1 := hC 1 (by omega) 1 (by omega) n11
  have v12 : b2 ≠ c2 := hC 1 (by omega) 2 (by omega) n12
  have v13 : b3 ≠ c3 := hC 1 (by omega) 3 (by omega) n13
  have v20 : c0 ≠ d0 := hC 2 (by omega) 0 (by omega) n20
  have v21 : c1 ≠ d1 := hC 2 (by omega) 1 (by omega) n21
  have v22 : c2 ≠ d2 := hC 2 (by omega) 2 (by omega) n22
  have v23 : c3 ≠ d3 := hC 2 (by omega) 3 (by omega) n23
  have L0 := moveRow_noop4 n00 n01 n02 n03 ea0 ea1 ea2
  have L1 := moveRow_noop4 n10 n11 n12 n13 eb0 eb1 eb2
  have L2 := moveRow_noop4 n20 n21 n22 n23 ec0 ec1 ec2
  have L3 := moveRow_noop4 n30 n31 n32 n33 ed0 ed1 ed2
  have R0 := moveRow_noop4 n03 n02 n01 n00 ea2.symm ea1.symm ea0.symm
  have R1 := moveRow_noop4 n13 n12 n11 n10 eb2.symm eb1.symm eb0.symm
  have R2 := moveRow_noop4 n23 n22 n21 n20 ec2.symm ec1.symm ec0.symm
  have R3 := moveRow_noop4 n33 n32 n31 n30 ed2.symm ed1.symm ed0.symm
  have U0 := moveRow_noop4 n00 n10 n20 n30 v00 v10 v20
  have U1 := moveRow_noop4 n01 n11 n21 n31 v01 v11 v21
  have U2 := moveRow_noop4 n02 n12 n22 n32 v02 v12 v22
  have U3 := moveRow_noop4 n03 n13 n23 n33 v03 v13 v23
  have D0 := moveRow_noop4 n30 n20 n10 n00 v20.symm v10.symm v00.symm
  have D1 := moveRow_noop4 n31 n21 n11 n01 v21.symm v11.symm v01.symm
  have D2 := moveRow_noop4 n32 n22 n12 n02 v22.symm v12.symm v02.symm
  have D3 := moveRow_noop4 n33 n23 n13 n03 v23.symm v13.symm v03.symm
  intro d
  cases d with
  | left =>
    simp [moveBoard, moveLeft, moveLines, L0, L1, L2, L3]
  | right =>
    simp [moveBoard, moveRight, moveLines, R0, R1, R2, R3]
  | up =>
    simp [moveBoard, moveUp, moveLines, transpose4, U0, U1, U2, U3]
  | down =>
    simp [moveBoard, moveDown, moveLines, transpose4, D0, D1, D2, D3]

/-- The move engine matches the reference per-line squash in every
direction, both on the resulting grid and on the score delta. -/
lemma moveBoard_eq_refBoard (d : Dir) (g : Grid) :
    (moveBoard d g).1 = (refBoard d g).1 ∧
      (moveBoard d g).2.1 = (refBoard d g).2 := by
  cases d with
  | left =>
    exact ⟨moveLines_fst g, moveLines_score g⟩
  | right =>
    constructor
    · simp [moveBoard, moveRight, refBoard, moveLines_fst, List.map_map,
        Function.comp_def]
    · simp [moveBoard, moveRight, refBoard, moveLines_score, List.map_map,
        Function.comp_def]
  | up =>
    constructor
    · simp [moveBoard, moveUp, refBoard, moveLines_fst]
    · simp [moveBoard, moveUp, refBoard, moveLines_score]
  | down =>
    constructor
    · simp [moveBoard, moveDown, refBoard, moveLines_fst, List.map_map,
        Function.comp_def]
    · simp [moveBoard, moveDown, refBoard, moveLines_score, List.map_map,
        Function.comp_def]

/-- The move engine conserves the total of all tile values, pre-spawn. -/
lemma gridSum_moveBoard (d : Dir) (g : Grid) :
    gridSum (moveBoard d g).1 = gridSum g := by
  cases d <;>
    simp [moveBoard, moveLeft, moveRight, moveUp, moveDown,
      gridSum_transpose4, gridSum_map_reverse, gridSum_moveLines]

/-- Invariant of the reconciler loop for Move animations: their destinations
are pairwise distinct, and each claimed destination has been removed from
`currentPositions`. -/
def MoveInv (st : RecState) : Prop :=
  (moveTargets st.anims).Nodup ∧ ∀ q ∈ moveTargets st.anims, st.cur q = none

/-- Invariant of the reconciler loop for Merge animations: their destinations
are pairwise distinct, and each is marked in `mergedCells`. -/
def MergeInv (st : RecState) : Prop :=
  (mergeTargets st.anims).Nodup ∧ ∀ q ∈ mergeTargets st.anims, st.merged q = true

lemma moveTargets_append (l : List TileAnimation) (a : TileAnimation) :
    moveTargets (l ++ [a]) =
      if a.animType = AnimKind.move then moveTargets l ++ [(a.toY, a.toX)]
      else moveTargets l := by
  by_cases h : a.animType = AnimKind.move <;>
    simp [moveTargets, List.filter_append, h]

lemma mergeTargets_append (l : List TileAnimation) (a : TileAnimation) :
    mergeTargets (l ++ [a]) =
      if a.animType = AnimKind.merge then mergeTargets l ++ [(a.toY, a.toX)]
      else mergeTargets l := by
  by_cases h : a.animType = AnimKind.merge <;>
    simp [mergeTargets, List.filter_append, h]

lemma processCell_moveInv (dir : Dir) (prev board : Grid) (st : RecState)
    (p : Nat × Nat) (h : MoveInv st) :
    MoveInv (processCell dir prev board st p) := by
  obtain ⟨hnd, hclaim⟩ := h
  unfold processCell
  dsimp only
  split
  · split
    · -- a Move animation is emitted and its destination claimed
      next q hq =>
      have hcur : st.cur q = some (cell prev p.1 p.2) := by
        simpa using List.find?_some hq
      have hnew : q ∉ moveTargets st.anims := fun hmem => by
        rw [hclaim _ hmem] at hcur
        cases hcur
      constructor
      · rw [moveTargets_append, if_pos rfl]
        refine List.Nodup.append hnd (List.nodup_singleton _) ?_
        intro x hx hx2
        have hxq : x = (q.1, q.2) := List.mem_singleton.mp hx2
        subst hxq
        simp only [Prod.mk.eta] at hx
        exact hnew hx
      · intro x hx
        rw [moveTargets_append, if_pos rfl] at hx
        rcases List.mem_append.mp hx with hx | hx
        · by_cases hxq : x = q
          · simp [hxq]
          · simp only [if_neg hxq]
            exact hclaim x hx
        · have hxq : x = (q.1, q.2) := List.mem_singleton.mp hx
          subst hxq
          simp
    · -- no Move match: either a Merge animation or nothing; `cur` unchanged
      split
      · next q hq =>
        refine ⟨?_, ?_⟩
        · simpa [moveTargets_append] using hnd
        · intro x hx
          simp only [moveTargets_append] at hx
          simp at hx
          exact hclaim x hx
      · exact ⟨hnd, hclaim⟩
  · exact ⟨hnd, hclaim⟩

lemma processCell_mergeInv (dir : Dir) (prev board : Grid) (st : RecState)
    (p : Nat × Nat) (h : MergeInv st) :
    MergeInv (processCell dir prev board st p) := by
  obtain ⟨hnd, hclaim⟩ := h
  unfold processCell
  dsimp only
  split
  · split
    · -- a Move animation: merge bookkeeping unchanged
      next q hq =>
      refine ⟨?_, ?_⟩
      · simpa [mergeTargets_append] using hnd
      · intro x hx
        simp only [mergeTargets_append] at hx
        simp at hx
        exact hclaim x hx
    · split
      · -- a Merge animation is emitted at a position not yet merge-claimed
        next q hq =>
        have hmg : st.merged q = false := by
          have := List.find?_some hq
          simp only [Bool.and_eq_true, Bool.not_eq_true'] at this
          exact this.2
        have hnew : q ∉ mergeTargets st.anims := fun hmem => by
          rw [hclaim _ hmem] at hmg
          cases hmg
        constructor
        · rw [mergeTargets_append, if_pos rfl]
          refine List.Nodup.append hnd (List.nodup_singleton _) ?_
          intro x hx hx2
          have hxq : x = (q.1, q.2) := List.mem_singleton.mp hx2
          subst hxq
          simp only [Prod.mk.eta] at hx
          exact hnew hx
        · intro x hx
          rw [mergeTargets_append, if_pos rfl] at hx
          rcases List.mem_append.mp hx with hx | hx
          · by_cases hxq : x = q
            · simp [hxq]
            · simp only [if_neg hxq]
              exact hclaim x hx
          · have hxq : x = (q.1, q.2) := List.mem_singleton.mp hx
            subst hxq
            simp
      · exact ⟨hnd, hclaim⟩
  · exact ⟨hnd, hclaim⟩

lemma foldl_moveInv (dir : Dir) (prev board : Grid) :
    ∀ (cells : List (Nat × Nat)) (st : RecState), MoveInv st →
      MoveInv (cells.foldl (processCell dir prev board) st)
  | [], _, h => h
  | c :: cs, st, h =>
    foldl_moveInv dir prev board cs _ (processCell_moveInv dir prev board st c h)

lemma foldl_mergeInv (dir : Dir) (prev board : Grid) :
    ∀ (cells : List (Nat × Nat)) (st : RecState), MergeInv st →
      MergeInv (cells.foldl (processCell dir prev board) st)
  | [], _, h => h
  | c :: cs, st, h =>
    foldl_mergeInv dir prev board cs _ (processCell_mergeInv dir prev board st c h)

/-- Destinations of Move animations emitted by the reconciler are pairwise
distinct. -/
lemma prepareAnimations_moveNodup (dir : Dir) (prev board : Grid) :
    (moveTargets (prepareAnimations dir prev board)).Nodup := by
  have h := foldl_moveInv dir prev board (traversal dir) (initRecState board)
    ⟨by simp [moveTargets, initRecState], by simp [moveTargets, initRecState]⟩
  exact h.1

/-- Destinations of Merge animations emitted by the reconciler are pairwise
distinct: at most one Merge animation per destination. -/
lemma prepareAnimations_mergeNodup (dir : Dir) (prev board : Grid) :
    (mergeTargets (prepareAnimations dir prev board)).Nodup := by
  have h := foldl_mergeInv dir prev board (traversal dir) (initRecState board)
    ⟨by simp [mergeTargets, initRecState], by simp [mergeTargets, initRecState]⟩
  exact h.1

/-- C1: for every 4×4 grid and every direction, the move function transforms
each line (row or column) exactly as the spec's two-pass reference algorithm
— the imperative loop implementation (`moveUp`/`moveRight`/`moveDown`/
`moveLeft`, here `moveBoard`) equals the greedy line-squash reference
function (`refBoard`, built from `squashLine`) on every line, including the
accumulated score delta. -/
theorem C1_move_refines_reference (d : Dir) (g : Grid) :
    (moveBoard d g).1 = (refBoard d g).1 ∧
      (moveBoard d g).2.1 = (refBoard d g).2 :=
  moveBoard_eq_refBoard d g

/-- C3: for every grid and every direction, the total of all tile values
immediately after the move passes (before any spawn) equals the total before
the move. -/
theorem C3_move_preserves_sum (d : Dir) (g : Grid) :
    gridSum (moveBoard d g).1 = gridSum g :=
  gridSum_moveBoard d g

/-- C4: `canMove` returns true iff the grid has an empty cell or a pair of
horizontally or vertically adjacent cells holding equal non-zero values. -/
theorem C4_canMove_iff (g : Grid) : canMove g = true ↔ canMoveSpec g :=
  canMove_iff_spec g

/-- C5 counterexample: the claim says the win check reports a win for every
grid containing a cell ≥ 2048; on a well-formed grid whose largest tile is
4096 with no exact 2048 tile, `checkWin` reports no win. -/
theorem C5_counterexample :
    gridWF bigTileGrid ∧ 2048 ≤ cell bigTileGrid 0 0 ∧
      checkWin bigTileGrid = false := by
  decide

/-- C5 amended: the win check reports a win exactly when some cell holds the
value 2048 itself (`board[i][j] == 2048`), so a grid whose largest tile
exceeds 2048 without an exact 2048 tile is not detected. -/
theorem C5_amended_checkWin_exact (g : Grid) :
    checkWin g = true ↔ ∃ i, i < 4 ∧ ∃ j, j < 4 ∧ cell g i j = 2048 :=
  checkWin_iff g

/-- C6: on a 4×4 grid where `canMove` is false, every direction leaves the
grid unchanged, with zero score delta and `moved == false`. -/
theorem C6_blocked_board_noop {g : Grid} (hwf : gridWF g)
    (hcm : canMove g = false) (d : Dir) : moveBoard d g = (g, 0, false) :=
  canMove_false_noop hwf hcm d

/-- Witness for C6 at a concrete blocked board. -/
theorem C6_witness :
    gridWF blockedGrid ∧ canMove blockedGrid = false ∧
      moveBoard Dir.left blockedGrid = (blockedGrid, 0, false) :=
  ⟨by decide, by decide, C6_blocked_board_noop (by decide) (by decide) Dir.left⟩

/-- C7: the reconciler never emits two Move transitions targeting the same
destination cell. -/
theorem C7_no_duplicate_move_destinations (dir : Dir) (prev board : Grid) :
    (moveTargets (prepareAnimations dir prev board)).Nodup :=
  prepareAnimations_moveNodup dir prev board

/-- C2 counterexample, on board pairs produced by `moveLeft` in the recorded
direction.  First pair (`[4,2,2,4]` top row): destination `(0,0)` receives a
Merge transition (from the tile at column 1) and a Move transition (from the
tile at column 3) — a destination can receive transitions of both kinds.
Second pair (`[2,2,0,0]` top row): the two tiles that merge into `(0,0)`
yield a single Merge transition, not two — the second contributing tile gets
no transition. -/
theorem C2_counterexample :
    moveLeft cexPrev = (cexCurr, 4, true) ∧
      prepareAnimations Dir.left cexPrev cexCurr =
        [⟨1, 0, 0, 0, 2, AnimKind.merge⟩, ⟨2, 0, 1, 0, 2, AnimKind.merge⟩,
         ⟨3, 0, 0, 0, 4, AnimKind.move⟩] ∧
      moveLeft cexPrev2 = (cexCurr2, 4, true) ∧
      prepareAnimations Dir.left cexPrev2 cexCurr2 =
        [⟨0, 0, 0, 0, 2, AnimKind.merge⟩] := by
  refine ⟨?_, ?_, ?_, ?_⟩ <;> rfl

/-- C2 amended: for every reconciler output, each destination cell receives
at most one Move transition and at most one Merge transition (the
`mergedCells` guard blocks a second Merge to the same cell); a destination
may receive transitions of both kinds. -/
theorem C2_amended_destination_claims (dir : Dir) (prev board : Grid) :
    (moveTargets (prepareAnimations dir prev board)).Nodup ∧
      (mergeTargets (prepareAnimations dir prev board)).Nodup :=
  ⟨prepareAnimations_moveNodup dir prev board,
   prepareAnimations_mergeNodup dir prev board⟩

/-- C8: while the animating flag is set, a directional move command returns
false and is a complete no-op on the session state. -/
theorem C8_move_rejected_while_animating (ci : Nat) (four : Bool) (g : Game)
    (d : Dir) (h : g.animating = true) : move ci four g d = (g, false) := by
  simp [move, h]

/-- Witness for C8 at a concrete mid-animation session state. -/
theorem C8_witness :
    animGame.animating = true ∧ move 0 false animGame Dir.up = (animGame, false) :=
  ⟨rfl, C8_move_rejected_while_animating 0 false animGame Dir.up rfl⟩

/-- C9: a failed load (missing file, unreadable file, or undecodable JSON)
returns false and leaves grid, score, best score, game-over, win and
show-win exactly as they were. -/
theorem C9_load_failure_preserves_state (g : Game) :
    (coreView (loadGame LoadResult.missing g).1 = coreView g ∧
        (loadGame LoadResult.missing g).2 = false) ∧
      (coreView (loadGame LoadResult.readError g).1 = coreView g ∧
        (loadGame LoadResult.readError g).2 = false) ∧
      (coreView (loadGame LoadResult.decodeError g).1 = coreView g ∧
        (loadGame LoadResult.decodeError g).2 = false) :=
  ⟨⟨rfl, rfl⟩, ⟨rfl, rfl⟩, ⟨rfl, rfl⟩⟩

/-- C10: the win flag is monotone under move commands — once set, a
directional move leaves it set (`checkWin` never assigns false); an explicit
reset clears it, and loading a snapshot replaces it by the stored flag. -/
theorem C10_win_monotone (ci : Nat) (four : Bool) (g : Game) (d : Dir)
    (c1 c2 : Nat × Bool) (s : GameSave) (h : g.win = true) :
    ((move ci four g d).1).win = true ∧ (resetGame c1 c2 g).win = false ∧
      ((loadGame (LoadResult.ok s) g).1).win = s.win := by
  refine ⟨?_, rfl, rfl⟩
  unfold move
  dsimp only
  split
  · exact h
  · split
    · split <;> simp [h]
    · simp [h]

/-- Witness for C10 at a concrete winning session state. -/
theorem C10_witness :
    winGame.win = true ∧
      ((move 0 false winGame Dir.left).1).win = true ∧
      (resetGame (0, false) (1, true) winGame).win = false ∧
      ((loadGame (LoadResult.ok ⟨cexPrev, 8, 20, false, false, true⟩)
          winGame).1).win = false :=
  ⟨rfl,
   (C10_win_monotone 0 false winGame Dir.left (0, false) (1, true)
      ⟨cexPrev, 8, 20, false, false, true⟩ rfl).1,
   (C10_win_monotone 0 false winGame Dir.left (0, false) (1, true)
      ⟨cexPrev, 8, 20, false, false, true⟩ rfl).2.1,
   (C10_win_monotone 0 false winGame Dir.left (0, false) (1, true)
      ⟨cexPrev, 8, 20, false, false, true⟩ rfl).2.2⟩

end Game2048
